import Mathlib

/-!
# Verification of the `vms` libvirt command-line tool

Shallow embedding of `src/vms.py` (a click-based CLI managing libvirt
domains) and proofs of the frozen claims about it.

The hypervisor (libvirt) is an external collaborator: its behaviour is
modelled by an `Env` of oracles saying which calls succeed or fail, and
each command is embedded as a function from the environment and the
enumerated domains to the list of observable events it emits (hypervisor
calls and console messages), together with a flag recording whether an
uncaught exception escaped the command (which makes the process exit
non-zero).

Python's `re.search` is external as well; it is modelled on the pattern
subset the claims quantify over: literal characters, the wildcard `.` and
the anchors `^` and `$`.  Any other regex special character makes the
model reject the pattern (Python would either reject it too, e.g. `*`
with nothing to repeat, or give it a meaning this model does not need);
the theorems below only ever quantify over patterns inside the modelled
subset or use concrete patterns on which the model agrees with Python.
-/

/-! ## Pattern Matcher (`matches`, vms.py:527-531, and the model of `re.search`) -/

/-- The regex special characters of Python's `re` outside character
classes.  Patterns containing any of them (other than `.`, `^`, `$`,
which are modelled) are rejected by `parsePattern`. -/
def isSpecialChar (c : Char) : Bool :=
  c ∈ ['.', '^', '$', '*', '+', '?', '{', '}', '[', ']', '\\', '|', '(', ')']

/-- One atom of the modelled regex subset: a literal character, the
wildcard `.`, or an anchor `^` / `$`. -/
inductive Atom where
  | lit (c : Char)
  | dot
  | caret
  | dollar
deriving DecidableEq, Repr

/-- Parse a pattern string (as a character list) into atoms.  `.`, `^`,
`$` become their atoms, any other special character is rejected, and
everything else is a literal. -/
def parsePattern : List Char → Except Unit (List Atom)
  | [] => .ok []
  | c :: rest => do
      let as ← parsePattern rest
      if c = '.' then pure (.dot :: as)
      else if c = '^' then pure (.caret :: as)
      else if c = '$' then pure (.dollar :: as)
      else if isSpecialChar c then .error ()
      else pure (.lit c :: as)

/-- Match a list of atoms against the text at the current position.
`atStart` records whether the current position is the start of the
subject string (for `^`); `$` matches only at the end of the string. -/
def matchFrom : List Atom → Bool → List Char → Bool
  | [], _, _ => true
  | .caret :: as, atStart, s => atStart && matchFrom as atStart s
  | .dollar :: as, atStart, s => s.isEmpty && matchFrom as atStart s
  | .dot :: _, _, [] => false
  | .dot :: as, _, _ :: s => matchFrom as false s
  | .lit _ :: _, _, [] => false
  | .lit c :: as, _, d :: s => c == d && matchFrom as false s

/-- Search semantics: try to match at every position of the text,
left to right (`re.search`, not full match). -/
def searchFrom (atoms : List Atom) : Bool → List Char → Bool
  | b, [] => matchFrom atoms b []
  | b, c :: t => matchFrom atoms b (c :: t) || searchFrom atoms false t

/-- Model of Python's `re.search(pattern, name)` returning whether a
match exists; `.error` models `re.error` raised on an invalid (or
unmodelled) pattern. -/
def re_search (pattern name : String) : Except Unit Bool :=
  (parsePattern pattern.toList).map (fun atoms => searchFrom atoms true name.toList)

/-- The list comprehension `[re.search(p, name) for p in patterns]`:
`re.search` runs on every pattern left-to-right, so the first invalid
pattern raises. -/
def searchAll (name : String) : List String → Except Unit (List Bool)
  | [] => .ok []
  | p :: ps => do
      let b ← re_search p name
      let bs ← searchAll name ps
      pure (b :: bs)

/-- `matches(name, patterns)` (vms.py:527-531):
`any([re.search(p, name) for p in patterns]) or not patterns`.
(Named `vm_matches` because `matches` is reserved in Lean.) -/
def vm_matches (name : String) (patterns : List String) : Except Unit Bool := do
  let results ← searchAll name patterns
  pure (results.any id || patterns.isEmpty)

/-- Whether the second list starts with the first one. -/
def leadsWith : List Char → List Char → Bool
  | [], _ => true
  | _ :: _, [] => false
  | c :: p, d :: s => c == d && leadsWith p s

/-- Contiguous-substring test on character lists (used to state the
claims about substring patterns and about nodes occurring in an XML
string). -/
def isSubstr (p : List Char) : List Char → Bool
  | [] => p.isEmpty
  | c :: t => leadsWith p (c :: t) || isSubstr p t

/-! ## Data model (domains, disks, snapshots; vms.py:20-30, 176-194) -/

/-- Domain power states (`STATES`, vms.py:21-30). -/
inductive DomState where
  | running
  | shutdown
  | shutoff
  | paused
  | nostate
  | blocked
  | crashed
  | pmsuspended
deriving DecidableEq, Repr

/-- A disk `<source>` XML element: the five identifying attributes of
`SOURCE_ATTRIBUTES` (vms.py:20) plus the `pool` attribute, each present
or absent (XML attributes are unique per element). -/
structure SourceNode where
  file : Option String := none
  dir : Option String := none
  name : Option String := none
  dev : Option String := none
  volume : Option String := none
  pool : Option String := none
deriving DecidableEq, Repr

/-- A `<disk>` element of the domain XML.  `target` is the `<target>`
child element when present, holding its optional `dev` attribute;
`source` is the optional `<source>` child element. -/
structure Disk where
  target : Option (Option String) := none
  source : Option SourceNode := none
deriving DecidableEq, Repr

/-- A libvirt domain as this tool observes it: name, power state, disk
attachments from the XML description, and its snapshot names. -/
structure Domain where
  name : String
  state : DomState
  disks : List Disk := []
  snapshots : List String := []
deriving DecidableEq, Repr

/-- The values of the identifying source attributes actually present,
i.e. `SOURCE_ATTRIBUTES.intersection(set(source_node.keys()))` paired
with their values (vms.py:189).  The intersection's size is this list's
length; when it is 1 the unique value is the `source` string. -/
def identifying (s : SourceNode) : List String :=
  [s.file, s.dir, s.name, s.dev, s.volume].filterMap id

/-- Reference to a storage volume handle: found inside a named pool
(`storageVolLookupByName`) or globally by path (`storageVolLookupByPath`). -/
inductive VolRef where
  | inPool (pool vol : String)
  | byPath (path : String)
deriving DecidableEq, Repr

/-- One entry of `volumes_to_delete` (vms.py:231-233):
`{"volume": volume, "target": target, "source": source}`.
`target` is optional because `target_node.get("dev")` may be `None`. -/
structure VolEntry where
  volume : VolRef
  target : Option String
  source : String
deriving DecidableEq, Repr

/-- Environment of hypervisor oracles: which libvirt calls succeed.
Lookup oracles say what exists; `*Fails` oracles say which calls raise
`libvirtError`; `nowNs` is `time.time_ns()`. -/
structure Env where
  pools : List String := []
  poolVolumes : String → String → Bool := fun _ _ => false
  pathVolumes : String → Bool := fun _ => false
  destroyFails : String → Bool := fun _ => false
  undefineFails : String → Bool := fun _ => false
  volDeleteFails : VolRef → Bool := fun _ => false
  createFails : String → Bool := fun _ => false
  shutdownFails : String → Bool := fun _ => false
  snapCreateFails : String → Bool := fun _ => false
  snapDeleteFails : String → String → Bool := fun _ _ => false
  revertFails : String → Bool := fun _ => false
  setTimeFails : String → Bool := fun _ => false
  nowNs : Nat := 0

/-- Observable behaviour of a command: hypervisor calls issued and
console messages printed, in order.  A call event is emitted whenever
the call is issued, whether or not it then raises. -/
inductive Event where
  | destroyCall (dom : String)
  | poolLookup (pool : String)
  | volLookupInPool (pool vol : String)
  | volLookupByPath (path : String)
  | undefineCall (dom : String)
  | volDeleteCall (vol : VolRef)
  | createCall (dom : String)
  | shutdownCall (dom : String)
  | snapCreateCall (dom : String) (xml : String)
  | snapDeleteCall (dom snap : String)
  | revertCall (dom snap : String)
  | setTimeCall (dom : String) (seconds nseconds : Nat)
  | msg (text : String)
deriving DecidableEq, Repr

/-- Render an optional string the way Python's `str.format` renders the
value of a possibly-`None` variable. -/
def fmtOpt : Option String → String
  | none => "None"
  | some s => s

/-! ## delete (vms.py:157-260) -/

/-- Processing of one `<disk>` element in `delete`'s loop
(vms.py:177-233): returns the events emitted for this disk and the
`volumes_to_delete` entry appended, if any.  Hypervisor error text is
abstracted as the constant `libvirtError`. -/
def processDisk (env : Env) (name : String) (disk : Disk) : List Event × Option VolEntry :=
  match disk.target with
  | none => ([.msg ("Missing target in disk definition of vm " ++ name)], none)
  | some target =>
    match disk.source with
    | none => ([], none)
    | some src =>
      match identifying src with
      | [source] =>
        match src.pool with
        | some pool =>
          if env.pools.contains pool then
            if env.poolVolumes pool source then
              ([.poolLookup pool, .volLookupInPool pool source],
               some ⟨.inPool pool source, target, source⟩)
            else
              ([.poolLookup pool, .volLookupInPool pool source,
                .msg ("Storage volume " ++ pool ++ "/" ++ source ++ " not found for disk "
                      ++ fmtOpt target ++ " of vm " ++ name)], none)
          else
            ([.poolLookup pool,
              .msg ("Storage pool " ++ pool ++ " not found for disk " ++ fmtOpt target
                    ++ " of vm " ++ name)], none)
        | none =>
          if env.pathVolumes source then
            ([.volLookupByPath source], some ⟨.byPath source, target, source⟩)
          else
            ([.volLookupByPath source,
              .msg ("Storage volume " ++ source ++ " of vm " ++ name
                    ++ " not managed by libvirt, delete manually")], none)
      | _ => ([], none)

/-- Events of the volume-deletion loop after a successful undefine
(vms.py:249-260). -/
def deleteVolumes (env : Env) : List VolEntry → List Event
  | [] => []
  | v :: rest =>
    (if env.volDeleteFails v.volume then
      [.volDeleteCall v.volume,
       .msg ("Failed to delete volume " ++ fmtOpt v.target ++ "(" ++ v.source
             ++ "): libvirtError")]
    else
      [.volDeleteCall v.volume, .msg ("Volume " ++ v.source ++ " deleted")])
    ++ deleteVolumes env rest

/-- Processing of one matched domain in `delete`'s loop (vms.py:169-260):
the events emitted and whether an uncaught exception escaped.  The
running check and `dom.destroy()` (vms.py:171-173) come first and are
not inside a `try`, so a destroy failure propagates; `undefineFlags`
failure is caught and skips the volume loop (`continue`). -/
def deleteDomain (env : Env) (dom : Domain) : List Event × Bool :=
  let name := dom.name
  if dom.state = .running ∧ env.destroyFails name then
    ([.destroyCall name], true)
  else
    let stopEvs : List Event :=
      if dom.state = .running then [.destroyCall name, .msg ("Stopped " ++ name)] else []
    let diskResults := dom.disks.map (processDisk env name)
    let diskEvs := (diskResults.map Prod.fst).flatten
    let volumes := diskResults.filterMap Prod.snd
    if env.undefineFails name then
      (stopEvs ++ diskEvs
        ++ [.undefineCall name, .msg ("Failed to delete " ++ name ++ ": libvirtError")],
       false)
    else
      (stopEvs ++ diskEvs ++ [.undefineCall name, .msg ("Deleted " ++ name)]
        ++ deleteVolumes env volumes,
       false)

/-- Filter domains through the Pattern Matcher, as the comprehension
`[dom for dom in listAllDomains() if matches(dom.name(), patterns)]`
(vms.py:166): a `re.error` from any pattern propagates. -/
def filterMatched (patterns : List String) : List Domain → Except Unit (List Domain)
  | [] => .ok []
  | d :: rest => do
      let m ← vm_matches d.name patterns
      let r ← filterMatched patterns rest
      pure (if m then d :: r else r)

/-- The `for dom in domains` loop of `delete` (vms.py:169): an uncaught
exception while processing one domain aborts the remaining ones. -/
def runDeleteLoop (env : Env) : List Domain → List Event × Bool
  | [] => ([], false)
  | d :: rest =>
    let (evs, crashed) := deleteDomain env d
    if crashed then (evs, true)
    else
      let (r, c) := runDeleteLoop env rest
      (evs ++ r, c)

/-- The whole `delete` command (vms.py:157-260) over the enumerated
domains: build the matched list, then process each matched domain. -/
def deleteCmd (env : Env) (patterns : List String) (doms : List Domain) :
    List Event × Bool :=
  match filterMatched patterns doms with
  | .error _ => ([], true)
  | .ok matched => runDeleteLoop env matched

/-! ## start / stop (vms.py:102-154) -/

/-- The `start` command loop (vms.py:111-124): for each enumerated
domain, `if dom.state()[0] != RUNNING and matches(...)` — the state is
checked before the Pattern Matcher runs, `and` short-circuits.
`dom.create()` failures are caught and reported. -/
def startCmd (env : Env) (patterns : List String) : List Domain → List Event × Bool
  | [] => ([], false)
  | d :: rest =>
    if d.state ≠ .running then
      match vm_matches d.name patterns with
      | .error _ => ([], true)
      | .ok true =>
        let evs : List Event :=
          if env.createFails d.name then
            [.createCall d.name, .msg ("Failed to start " ++ d.name ++ ": libvirtError")]
          else
            [.createCall d.name, .msg (d.name ++ " started")]
        let (r, c) := startCmd env patterns rest
        (evs ++ r, c)
      | .ok false => startCmd env patterns rest
    else startCmd env patterns rest

/-- The `stop` command loop (vms.py:137-154): for each enumerated
domain, `if dom.state()[0] == RUNNING and matches(...)`; with `--force`
it calls `dom.destroy()`, otherwise `dom.shutdown()`; failures are
caught and reported. -/
def stopCmd (env : Env) (force : Bool) (patterns : List String) :
    List Domain → List Event × Bool
  | [] => ([], false)
  | d :: rest =>
    if d.state = .running then
      match vm_matches d.name patterns with
      | .error _ => ([], true)
      | .ok true =>
        let evs : List Event :=
          if force then
            if env.destroyFails d.name then
              [.destroyCall d.name, .msg ("Failed to shut down " ++ d.name ++ ": libvirtError")]
            else
              [.destroyCall d.name, .msg ("Powered off " ++ d.name)]
          else
            if env.shutdownFails d.name then
              [.shutdownCall d.name, .msg ("Failed to shut down " ++ d.name ++ ": libvirtError")]
            else
              [.shutdownCall d.name, .msg ("Triggered shutdown of " ++ d.name)]
        let (r, c) := stopCmd env force patterns rest
        (evs ++ r, c)
      | .ok false => stopCmd env force patterns rest
    else stopCmd env force patterns rest

/-! ## synctime (vms.py:263-293) -/

/-- The comprehension of `do_synctime` (vms.py:267):
`[dom for dom in listAllDomains() if matches(dom.name(), patterns) and
dom.state()[0] == RUNNING]`. -/
def filterMatchedRunning (patterns : List String) :
    List Domain → Except Unit (List Domain)
  | [] => .ok []
  | d :: rest => do
      let m ← vm_matches d.name patterns
      let r ← filterMatchedRunning patterns rest
      pure (if m ∧ d.state = .running then d :: r else r)

/-- Seconds/nanoseconds passed to `setTime`, computed from
`time.time_ns()` (vms.py:271-273; Python 3 always has `time.time_ns`). -/
def nowParts (env : Env) : Nat × Nat :=
  (env.nowNs / 10 ^ 9, env.nowNs % 10 ^ 9)

/-- The `for dom in domains` loop of `do_synctime` (vms.py:270-281):
the time is printed, then `dom.setTime` is called; a failure is caught
and reported.  The printed timestamp rendering is abbreviated to the
epoch seconds and nanoseconds it displays. -/
def syncLoop (env : Env) : List Domain → List Event
  | [] => []
  | d :: rest =>
    let (sec, nsec) := nowParts env
    [.msg (d.name ++ " time set to " ++ toString sec ++ "." ++ toString nsec),
     .setTimeCall d.name sec nsec]
    ++ (if env.setTimeFails d.name then
          [.msg ("Failed to set time " ++ toString sec ++ " on domain " ++ d.name)]
        else [])
    ++ syncLoop env rest

/-- `do_synctime(cnx, patterns)` (vms.py:263-281). -/
def do_synctime (env : Env) (patterns : List String) (doms : List Domain) :
    List Event × Bool :=
  match filterMatchedRunning patterns doms with
  | .error _ => ([], true)
  | .ok ds => (syncLoop env ds, false)

/-! ## snapshot create / delete / revert (vms.py:423-524) -/

/-- The `name_node` string of `snapshot_create` (vms.py:435):
`"<name>{}</name>".format(name) if name else ""`. -/
def name_node (name : String) : String :=
  if name = "" then "" else "<name>" ++ name ++ "</name>"

/-- The snapshot-create XML request (vms.py:436):
`"<domainsnapshot>{}</domainsnapshot>".format(name_node)`. -/
def snapshotXml (name : String) : String :=
  "<domainsnapshot>" ++ name_node name ++ "</domainsnapshot>"

/-- Whether a string contains a `description` XML node: any
serialization of one must contain the substring `<description`. -/
def containsDescrNode (s : String) : Bool :=
  isSubstr "<description".toList s.toList

/-- The `snapshot create` loop body over enumerated domains
(vms.py:438-449): matched domains get a `snapshotCreateXML` call with
the built request; failures are caught and reported. -/
def snapshotCreateCmd (env : Env) (name : String) (patterns : List String) :
    List Domain → List Event × Bool
  | [] => ([], false)
  | d :: rest =>
    match vm_matches d.name patterns with
    | .error _ => ([], true)
    | .ok false => snapshotCreateCmd env name patterns rest
    | .ok true =>
      let evs : List Event :=
        if env.snapCreateFails d.name then
          [.snapCreateCall d.name (snapshotXml name),
           .msg ("Failed to create snapshot on " ++ d.name ++ ": libvirtError")]
        else
          [.snapCreateCall d.name (snapshotXml name), .msg ("Created snapshot for " ++ d.name)]
      let (r, c) := snapshotCreateCmd env name patterns rest
      (evs ++ r, c)

/-- The snapshot selection of `snapshot delete` (vms.py:470-472):
`[snap for snap in dom.listAllSnapshots() if matches(snap.getName(), [name])]`
— a pattern search of `name` within each snapshot name.  A `re.error`
from `matches` propagates (it is not a `libvirtError`). -/
def selectByPattern (name : String) : List String → Except Unit (List String)
  | [] => .ok []
  | s :: rest => do
      let b ← vm_matches s [name]
      let tail ← selectByPattern name rest
      pure (if b then s :: tail else tail)

/-- The `for snapshot in snapshots` loop of `snapshot delete`
(vms.py:478-480): a `snapshot.delete()` failure raises out of the loop
(remaining snapshots of this domain are skipped) and is caught at the
domain level. -/
def deleteSnapsLoop (env : Env) (domName : String) : List String → List Event
  | [] => []
  | s :: rest =>
    if env.snapDeleteFails domName s then
      [.snapDeleteCall domName s,
       .msg ("Failed to delete snapshot on " ++ domName ++ ": libvirtError")]
    else
      [.snapDeleteCall domName s, .msg ("Deleted snapshot " ++ s ++ " on " ++ domName)]
      ++ deleteSnapsLoop env domName rest

/-- `snapshot delete` processing of one matched domain (vms.py:469-485):
select snapshots by pattern search, report when none matched, otherwise
delete each selected snapshot. -/
def snapshotDeleteDomain (env : Env) (name : String) (dom : Domain) :
    Except Unit (List Event) := do
  let selected ← selectByPattern name dom.snapshots
  if selected.isEmpty then
    pure [.msg ("No snapshot to delete for " ++ dom.name)]
  else
    pure (deleteSnapsLoop env dom.name selected)

/-- The `snapshot delete` command loop (vms.py:465-485). -/
def snapshotDeleteCmd (env : Env) (name : String) (patterns : List String) :
    List Domain → List Event × Bool
  | [] => ([], false)
  | d :: rest =>
    match vm_matches d.name patterns with
    | .error _ => ([], true)
    | .ok false => snapshotDeleteCmd env name patterns rest
    | .ok true =>
      match snapshotDeleteDomain env name d with
      | .error _ => ([], true)
      | .ok evs =>
        let (r, c) := snapshotDeleteCmd env name patterns rest
        (evs ++ r, c)

/-- `snapshot revert` processing of one matched domain (vms.py:505-522):
snapshots are selected by exact equality `snap.getName() == name`; the
revert happens only when exactly one snapshot was selected; a
`revertToSnapshot` failure is caught and reported. -/
def snapshotRevertDomain (env : Env) (name : String) (dom : Domain) : List Event :=
  let snapshots := dom.snapshots.filter (fun s => s == name)
  if snapshots.length = 1 then
    if env.revertFails dom.name then
      [.revertCall dom.name (snapshots.headD ""),
       .msg ("Failed to revert to snapshot " ++ name ++ " on " ++ dom.name ++ ": libvirtError")]
    else
      [.revertCall dom.name (snapshots.headD ""),
       .msg ("Reverted to snapshot for " ++ dom.name)]
  else
    [.msg ("No snapshot to revert to for " ++ dom.name)]

/-- The `for dom in listAllDomains()` loop of `snapshot revert`
(vms.py:502-522). -/
def revertLoop (env : Env) (name : String) (patterns : List String) :
    List Domain → List Event × Bool
  | [] => ([], false)
  | d :: rest =>
    match vm_matches d.name patterns with
    | .error _ => ([], true)
    | .ok false => revertLoop env name patterns rest
    | .ok true =>
      let evs := snapshotRevertDomain env name d
      let (r, c) := revertLoop env name patterns rest
      (evs ++ r, c)

/-- The whole `snapshot revert` command (vms.py:488-524): the revert
loop over all enumerated domains, then `do_synctime(ctx.obj, patterns)`
on the same enumeration. -/
def snapshotRevertCmd (env : Env) (name : String) (patterns : List String)
    (doms : List Domain) : List Event × Bool :=
  let (revEvs, crashed) := revertLoop env name patterns doms
  if crashed then (revEvs, true)
  else
    let (syncEvs, c2) := do_synctime env patterns doms
    (revEvs ++ syncEvs, c2)

/-! ## Helper predicates on events and patterns -/

/-- Whether an event is a storage lookup call. -/
def isLookup : Event → Bool
  | .poolLookup _ => true
  | .volLookupInPool _ _ => true
  | .volLookupByPath _ => true
  | _ => false

/-- Whether an event is a volume-delete call. -/
def isVolDelete : Event → Bool
  | .volDeleteCall _ => true
  | _ => false

/-- Whether a pattern string is accepted by the regex model. -/
def parseOk (p : String) : Bool :=
  match parsePattern p.toList with
  | .ok _ => true
  | .error _ => false

/-- The boolean outcome of a successful `re.search`. -/
def searchB (p name : String) : Bool :=
  match re_search p name with
  | .ok b => b
  | .error _ => false

/-! ## Pattern Matcher lemmas -/

lemma searchFrom_nil_atoms (b : Bool) (l : List Char) : searchFrom [] b l = true := by
  cases l <;> simp [searchFrom, matchFrom]

lemma re_search_empty_pat (name : String) : re_search "" name = .ok true := by
  have h : re_search "" name = .ok (searchFrom [] true name.toList) := rfl
  rw [h, searchFrom_nil_atoms]

lemma re_search_ok_iff (p name : String) :
    (∃ b, re_search p name = .ok b) ↔ parseOk p = true := by
  unfold re_search parseOk
  cases parsePattern p.toList <;> simp [Except.map]

lemma searchB_eq (p name : String) {b : Bool} (h : re_search p name = .ok b) :
    searchB p name = b := by
  simp [searchB, h]

lemma searchAll_eq_of_parses (name : String) (ps : List String)
    (h : ∀ p ∈ ps, parseOk p = true) :
    searchAll name ps = .ok (ps.map (fun p => searchB p name)) := by
  induction ps with
  | nil => rfl
  | cons p ps ih =>
    obtain ⟨b, hb⟩ := (re_search_ok_iff p name).mpr (h p (by simp))
    have hps := ih (fun q hq => h q (by simp [hq]))
    simp only [searchAll, hb, hps, List.map_cons, searchB_eq p name hb]
    rfl

lemma searchAll_isOk_iff (name : String) (ps : List String) :
    (∃ bs, searchAll name ps = .ok bs) ↔ ∀ p ∈ ps, parseOk p = true := by
  induction ps with
  | nil => simp [searchAll]
  | cons p ps ih =>
    constructor
    · rintro ⟨bs, hbs⟩ q hq
      cases hb : re_search p name with
      | error e =>
        simp only [searchAll, hb, Bind.bind, Except.bind] at hbs
        exact absurd hbs (by simp)
      | ok b =>
        cases hrest : searchAll name ps with
        | error e =>
          simp only [searchAll, hb, hrest, Bind.bind, Except.bind] at hbs
          exact absurd hbs (by simp)
        | ok brest =>
          rcases List.mem_cons.mp hq with rfl | hq2
          · exact (re_search_ok_iff q name).mp ⟨b, hb⟩
          · exact ih.mp ⟨brest, hrest⟩ q hq2
    · intro h
      exact ⟨_, searchAll_eq_of_parses name (p :: ps) h⟩

lemma vm_matches_eq_of_parses (name : String) (patterns : List String)
    (h : ∀ p ∈ patterns, parseOk p = true) :
    vm_matches name patterns =
      .ok ((patterns.map (fun p => searchB p name)).any id || patterns.isEmpty) := by
  unfold vm_matches
  rw [searchAll_eq_of_parses name patterns h]
  rfl

lemma vm_matches_isOk_iff (name : String) (patterns : List String) :
    (∃ b, vm_matches name patterns = .ok b) ↔ ∀ p ∈ patterns, parseOk p = true := by
  rw [← searchAll_isOk_iff]
  unfold vm_matches
  constructor
  · rintro ⟨b, hb⟩
    cases hs : searchAll name patterns with
    | error e => simp [hs] at hb
    | ok bs => exact ⟨bs, rfl⟩
  · rintro ⟨bs, hbs⟩
    exact ⟨bs.any id || patterns.isEmpty, by rw [hbs]; rfl⟩

lemma vm_matches_ok_of_ok (n1 n2 : String) (patterns : List String) {b : Bool}
    (h : vm_matches n1 patterns = .ok b) :
    ∃ b2, vm_matches n2 patterns = .ok b2 :=
  (vm_matches_isOk_iff n2 patterns).mpr ((vm_matches_isOk_iff n1 patterns).mp ⟨b, h⟩)

lemma parsePattern_lits (l : List Char) (h : ∀ c ∈ l, isSpecialChar c = false) :
    parsePattern l = .ok (l.map Atom.lit) := by
  induction l with
  | nil => rfl
  | cons c rest ih =>
    have hc := h c (by simp)
    have hrest := ih (fun d hd => h d (by simp [hd]))
    have hdot : c ≠ '.' := by rintro rfl; simp [isSpecialChar] at hc
    have hcaret : c ≠ '^' := by rintro rfl; simp [isSpecialChar] at hc
    have hdollar : c ≠ '$' := by rintro rfl; simp [isSpecialChar] at hc
    simp only [parsePattern, hrest, Bind.bind, Except.bind, hdot, hcaret, hdollar, hc,
      if_false, List.map_cons]
    rfl

lemma matchFrom_lits (l : List Char) (b : Bool) (rest : List Char) :
    matchFrom (l.map Atom.lit) b (l ++ rest) = true := by
  induction l generalizing b with
  | nil => simp [matchFrom]
  | cons c t ih => simp [matchFrom, ih]

lemma searchFrom_of_tail (atoms : List Atom) (pre s : List Char) (b : Bool)
    (h : ∀ b', matchFrom atoms b' s = true) :
    searchFrom atoms b (pre ++ s) = true := by
  induction pre generalizing b with
  | nil =>
    cases s with
    | nil => simpa [searchFrom] using h b
    | cons c t => simp [searchFrom, h b]
  | cons c t ih => simp [searchFrom, ih]

lemma leadsWith_exists (p : List Char) :
    ∀ s, leadsWith p s = true → ∃ post, s = p ++ post := by
  induction p with
  | nil => intro s _; exact ⟨s, rfl⟩
  | cons c t ih =>
    intro s h
    cases s with
    | nil => simp [leadsWith] at h
    | cons d u =>
      simp only [leadsWith, Bool.and_eq_true, beq_iff_eq] at h
      obtain ⟨rfl, h2⟩ := h
      obtain ⟨post, rfl⟩ := ih u h2
      exact ⟨post, rfl⟩

lemma isSubstr_exists (p : List Char) :
    ∀ s, isSubstr p s = true → ∃ pre post, s = pre ++ p ++ post := by
  intro s
  induction s with
  | nil =>
    intro h
    simp only [isSubstr, List.isEmpty_iff] at h
    exact ⟨[], [], by simp [h]⟩
  | cons c t ih =>
    intro h
    simp only [isSubstr, Bool.or_eq_true] at h
    rcases h with h | h
    · obtain ⟨post, hpost⟩ := leadsWith_exists p (c :: t) h
      exact ⟨[], post, by simp [hpost]⟩
    · obtain ⟨pre, post, rfl⟩ := ih h
      exact ⟨c :: pre, post, rfl⟩

/-! ## Claims C7 and C8: Pattern Matcher properties -/

/-- Claim C7: the Pattern Matcher returns true when the pattern list is
empty (`matches(x, []) == true` for every `x`); the empty-string
pattern matches every name, so any pattern list containing it (with
all its patterns well-formed, else `re.error` is raised during the
comprehension) selects every name. -/
theorem c7_empty_selects_all :
    (∀ name, vm_matches name [] = .ok true) ∧
    (∀ name, re_search "" name = .ok true) ∧
    (∀ name patterns, "" ∈ patterns → (∀ p ∈ patterns, parseOk p = true) →
      vm_matches name patterns = .ok true) := by
  refine ⟨fun name => rfl, re_search_empty_pat, ?_⟩
  intro name patterns hmem hok
  rw [vm_matches_eq_of_parses name patterns hok]
  have hsb : searchB "" name = true := searchB_eq _ _ (re_search_empty_pat name)
  have hany : (patterns.map (fun p => searchB p name)).any id = true :=
    List.any_eq_true.mpr ⟨true, List.mem_map.mpr ⟨"", hmem, hsb⟩, rfl⟩
  simp [hany]

/-- Witness for C7: a concrete list containing the empty pattern. -/
theorem c7_empty_selects_all_witness : vm_matches "anything" ["x", ""] = .ok true :=
  c7_empty_selects_all.2.2 "anything" ["x", ""] (by decide) (by decide)

/-- Counterexample to claim C8 as stated: `"^b"` is a substring of the
name `"a^b"`, yet `matches("a^b", ["^b"])` returns false (`^` anchors
the search at the start of the name, and `"a^b"` does not start with
`b`), not true. -/
theorem c8_counterexample :
    isSubstr "^b".toList "a^b".toList = true ∧ vm_matches "a^b" ["^b"] = .ok false :=
  ⟨by decide, rfl⟩

/-- Claim C8 (amended): for every name and every pattern that is a
substring of the name and contains no regex special character, the
Pattern Matcher applied to the name and a list containing that pattern
returns true. -/
theorem c8_literal_substring_matches (name pat : String)
    (hsub : isSubstr pat.toList name.toList = true)
    (hlit : ∀ c ∈ pat.toList, isSpecialChar c = false) :
    vm_matches name [pat] = .ok true := by
  obtain ⟨pre, post, hsplit⟩ := isSubstr_exists pat.toList name.toList hsub
  have hsearch : searchFrom (pat.toList.map Atom.lit) true name.toList = true := by
    rw [hsplit, List.append_assoc]
    exact searchFrom_of_tail _ pre _ true (fun b' => matchFrom_lits pat.toList b' post)
  have hre : re_search pat name = .ok true := by
    have h1 : re_search pat name =
        (parsePattern pat.toList).map (fun atoms => searchFrom atoms true name.toList) := rfl
    rw [h1, parsePattern_lits _ hlit]
    simp only [Except.map]
    rw [hsearch]
  simp only [vm_matches, searchAll, hre, Bind.bind, Except.bind]
  rfl

/-- Witness for C8 (amended): the literal pattern `"ght"` inside
`"nightly"`. -/
theorem c8_literal_substring_matches_witness : vm_matches "nightly" ["ght"] = .ok true :=
  c8_literal_substring_matches "nightly" "ght" (by decide) (by decide)

/-! ## Claim C5: the snapshot-create XML request -/

/-- Counterexample to claim C5 as stated: the request built for the
snapshot name `nightly` carries a name node containing `nightly` but no
description node at all (the claimed empty description node does not
exist: the built XML is `<domainsnapshot><name>nightly</name></domainsnapshot>`). -/
theorem c5_counterexample :
    isSubstr "<name>nightly</name>".toList (snapshotXml "nightly").toList = true ∧
    containsDescrNode (snapshotXml "nightly") = false := by
  constructor
  · decide
  · decide

/-- Claim C5 (amended): for every non-empty snapshot name, the built
snapshot-create request is exactly `<domainsnapshot>` + a name node
containing the given name + `</domainsnapshot>`, with no description
node. -/
theorem c5_snapshot_xml (name : String) (h : name ≠ "") :
    snapshotXml name =
      "<domainsnapshot>" ++ ("<name>" ++ name ++ "</name>") ++ "</domainsnapshot>" := by
  simp [snapshotXml, name_node, h]

/-- Witness for C5 (amended) at the name `nightly`. -/
theorem c5_snapshot_xml_witness :
    snapshotXml "nightly" =
      "<domainsnapshot>" ++ ("<name>" ++ "nightly" ++ "</name>") ++ "</domainsnapshot>" :=
  c5_snapshot_xml "nightly" (by decide)

/-! ## Claim C3: ambiguous source descriptors are skipped -/

/-- Claim C3: a disk whose source descriptor carries a number of
identifying attributes different from exactly one is never added to the
deletion set and no storage lookup is issued for it, regardless of the
pool attribute (which is quantified over inside `src`). -/
theorem c3_ambiguous_source_skipped (env : Env) (name : String) (disk : Disk)
    (src : SourceNode) (hs : disk.source = some src)
    (hn : (identifying src).length ≠ 1) :
    (processDisk env name disk).2 = none ∧
    ∀ e ∈ (processDisk env name disk).1, isLookup e = false := by
  rcases disk with ⟨target, source⟩
  rcases target with _ | target
  · simp [processDisk, isLookup]
  · cases hs
    cases hid : identifying src with
    | nil => simp [processDisk, hid]
    | cons v rest =>
      cases rest with
      | nil => exact absurd (by rw [hid]; rfl) hn
      | cons w tl => simp [processDisk, hid]

/-- Witness for C3: a source with both a `file` and a `dev` attribute
(two identifying attributes) and a pool attribute present. -/
theorem c3_ambiguous_source_skipped_witness :
    (processDisk {} "vm"
      ⟨some (some "vda"),
       some { file := some "/a", dev := some "/dev/sda", pool := some "default" }⟩).2 = none ∧
    ∀ e ∈ (processDisk {} "vm"
      ⟨some (some "vda"),
       some { file := some "/a", dev := some "/dev/sda", pool := some "default" }⟩).1,
      isLookup e = false :=
  c3_ambiguous_source_skipped {} "vm" _
    { file := some "/a", dev := some "/dev/sda", pool := some "default" } rfl (by decide)

/-! ## Event-kind classification lemmas for the delete workflow -/

lemma processDisk_event_kinds (env : Env) (name : String) (disk : Disk) :
    ∀ e ∈ (processDisk env name disk).1, isLookup e = true ∨ ∃ t, e = Event.msg t := by
  rcases disk with ⟨target, source⟩
  rcases target with _ | target
  · simp [processDisk]
  rcases source with _ | src
  · simp [processDisk]
  cases hid : identifying src with
  | nil => simp [processDisk, hid]
  | cons v rest =>
    cases rest with
    | cons w tl => simp [processDisk, hid]
    | nil =>
      cases hpool : src.pool with
      | none =>
        by_cases hp : env.pathVolumes v <;> simp [processDisk, hid, hpool, hp, isLookup]
      | some pool =>
        by_cases hc : pool ∈ env.pools
        · by_cases hv : env.poolVolumes pool v <;>
            simp [processDisk, hid, hpool, hc, hv, isLookup]
        · simp [processDisk, hid, hpool, hc, isLookup]

lemma deleteVolumes_event_kinds (env : Env) (vs : List VolEntry) :
    ∀ e ∈ deleteVolumes env vs, isVolDelete e = true ∨ ∃ t, e = Event.msg t := by
  induction vs with
  | nil => simp [deleteVolumes]
  | cons v rest ih =>
    intro e he
    unfold deleteVolumes at he
    rw [List.mem_append] at he
    rcases he with he | he
    · split at he <;>
      · simp only [List.mem_cons, List.not_mem_nil, or_false] at he
        rcases he with rfl | rfl
        · exact Or.inl rfl
        · exact Or.inr ⟨_, rfl⟩
    · exact ih e he

lemma diskEvents_no_volDelete (env : Env) (name : String) (disks : List Disk) :
    ∀ v, Event.volDeleteCall v ∉ ((disks.map (processDisk env name)).map Prod.fst).flatten := by
  intro v hv
  rw [List.mem_flatten] at hv
  obtain ⟨l, hl, hvl⟩ := hv
  rw [List.mem_map] at hl
  obtain ⟨pr, hpr, rfl⟩ := hl
  rw [List.mem_map] at hpr
  obtain ⟨disk, hdisk, rfl⟩ := hpr
  rcases processDisk_event_kinds env name disk _ hvl with h | ⟨t, ht⟩
  · simp [isLookup] at h
  · cases ht

lemma diskEvents_no_destroy (env : Env) (name : String) (disks : List Disk) :
    ∀ n, Event.destroyCall n ∉ ((disks.map (processDisk env name)).map Prod.fst).flatten := by
  intro n hv
  rw [List.mem_flatten] at hv
  obtain ⟨l, hl, hvl⟩ := hv
  rw [List.mem_map] at hl
  obtain ⟨pr, hpr, rfl⟩ := hl
  rw [List.mem_map] at hpr
  obtain ⟨disk, hdisk, rfl⟩ := hpr
  rcases processDisk_event_kinds env name disk _ hvl with h | ⟨t, ht⟩
  · simp [isLookup] at h
  · cases ht

lemma deleteVolumes_no_destroy (env : Env) (vs : List VolEntry) :
    ∀ n, Event.destroyCall n ∉ deleteVolumes env vs := by
  intro n hv
  rcases deleteVolumes_event_kinds env vs _ hv with h | ⟨t, ht⟩
  · simp [isVolDelete] at h
  · cases ht

/-! ## Trace shape of `deleteDomain` -/

lemma deleteDomain_crash (env : Env) (dom : Domain)
    (h : dom.state = .running ∧ env.destroyFails dom.name = true) :
    deleteDomain env dom = ([.destroyCall dom.name], true) := by
  simp [deleteDomain, h]

lemma deleteDomain_no_crash (env : Env) (dom : Domain)
    (h : ¬(dom.state = .running ∧ env.destroyFails dom.name = true)) :
    deleteDomain env dom =
      ((if dom.state = .running then
          [Event.destroyCall dom.name, Event.msg ("Stopped " ++ dom.name)]
        else []) ++
       ((dom.disks.map (processDisk env dom.name)).map Prod.fst).flatten ++
       (if env.undefineFails dom.name then
          [Event.undefineCall dom.name,
           Event.msg ("Failed to delete " ++ dom.name ++ ": libvirtError")]
        else
          [Event.undefineCall dom.name, Event.msg ("Deleted " ++ dom.name)] ++
          deleteVolumes env ((dom.disks.map (processDisk env dom.name)).filterMap Prod.snd)),
       false) := by
  by_cases hu : env.undefineFails dom.name = true <;>
    simp [deleteDomain, h, hu, List.append_assoc]

/-! ## Claim C1: undefine failure discards the deletion set -/

/-- Claim C1: when the undefine call for a domain is issued and fails,
no volume-delete call at all is issued while processing that domain,
the failure does not escape (no crash), and the delete loop goes on to
the remaining matched domains unchanged. -/
theorem c1_undefine_failure_discards_volumes (env : Env) (dom : Domain)
    (hu : Event.undefineCall dom.name ∈ (deleteDomain env dom).1)
    (hf : env.undefineFails dom.name = true) :
    (∀ v, Event.volDeleteCall v ∉ (deleteDomain env dom).1) ∧
    (deleteDomain env dom).2 = false ∧
    ∀ rest, runDeleteLoop env (dom :: rest) =
      ((deleteDomain env dom).1 ++ (runDeleteLoop env rest).1,
       (runDeleteLoop env rest).2) := by
  by_cases hcrash : dom.state = .running ∧ env.destroyFails dom.name = true
  · rw [deleteDomain_crash env dom hcrash] at hu
    simp at hu
  · have hdd := deleteDomain_no_crash env dom hcrash
    refine ⟨?_, by rw [hdd], ?_⟩
    · intro v hv
      rw [hdd] at hv
      simp only [hf, if_true] at hv
      rw [List.mem_append, List.mem_append] at hv
      rcases hv with (hv | hv) | hv
      · split at hv <;> simp at hv
      · exact diskEvents_no_volDelete env dom.name dom.disks v hv
      · simp at hv
    · intro rest
      simp [runDeleteLoop, hdd]

/-- Witness for C1: a running domain with one path-backed disk whose
undefine fails; the volume was collected but is not deleted and the
loop continues to the next domain. -/
theorem c1_undefine_failure_discards_volumes_witness :
    (∀ v, Event.volDeleteCall v ∉
      (deleteDomain
        { pathVolumes := fun _ => true, undefineFails := fun _ => true }
        { name := "web1", state := .running,
          disks := [{ target := some (some "vda"),
                      source := some { file := some "/img/web1.qcow2" } }] }).1) ∧
    (deleteDomain
        { pathVolumes := fun _ => true, undefineFails := fun _ => true }
        { name := "web1", state := .running,
          disks := [{ target := some (some "vda"),
                      source := some { file := some "/img/web1.qcow2" } }] }).2 = false ∧
    ∀ rest, runDeleteLoop
        { pathVolumes := fun _ => true, undefineFails := fun _ => true }
        ({ name := "web1", state := .running,
           disks := [{ target := some (some "vda"),
                       source := some { file := some "/img/web1.qcow2" } }] } :: rest) =
      ((deleteDomain
          { pathVolumes := fun _ => true, undefineFails := fun _ => true }
          { name := "web1", state := .running,
            disks := [{ target := some (some "vda"),
                        source := some { file := some "/img/web1.qcow2" } }] }).1
        ++ (runDeleteLoop
            { pathVolumes := fun _ => true, undefineFails := fun _ => true } rest).1,
       (runDeleteLoop
          { pathVolumes := fun _ => true, undefineFails := fun _ => true } rest).2) :=
  c1_undefine_failure_discards_volumes
    { pathVolumes := fun _ => true, undefineFails := fun _ => true }
    { name := "web1", state := .running,
      disks := [{ target := some (some "vda"),
                  source := some { file := some "/img/web1.qcow2" } }] }
    (by decide) (by decide)

/-! ## Claim C2: position of the forced stop in the delete workflow -/

/-- Formalization of claim C2 on a per-domain trace: every destroy call
for the domain comes after every storage-lookup event (all disks
already processed) and is immediately followed by the undefine call. -/
def destroyAfterDisks (name : String) (tr : List Event) : Bool :=
  (List.range tr.length).all fun k =>
    !(decide (tr.getD k (.msg "") = Event.destroyCall name)) ||
    (decide (tr.getD (k+1) (.msg "") = Event.undefineCall name) &&
     (List.range tr.length).all fun j =>
       !(isLookup (tr.getD j (.msg ""))) || decide (j < k))

/-- Counterexample to claim C2 as stated: for a running domain with one
path-backed disk, the destroy call is the first event of the domain's
trace — it happens before the disk is processed (the path lookup comes
later) and is not immediately followed by the undefine call. -/
theorem c2_counterexample :
    Event.destroyCall "web1" ∈
      (deleteDomain { pathVolumes := fun _ => true }
        { name := "web1", state := .running,
          disks := [{ target := some (some "vda"),
                      source := some { file := some "/img/web1.qcow2" } }] }).1 ∧
    destroyAfterDisks "web1"
      (deleteDomain { pathVolumes := fun _ => true }
        { name := "web1", state := .running,
          disks := [{ target := some (some "vda"),
                      source := some { file := some "/img/web1.qcow2" } }] }).1 = false := by
  constructor
  · decide
  · decide

/-- Claim C2 (amended): the running-state check and forced stop happen
at the start of processing each matched domain, before any disk
attachment is processed and before the undefine call: a destroy call
appears in a domain's delete trace only as its very first event, and
only for a domain that was in the running state. -/
theorem c2_destroy_first (env : Env) (dom : Domain) :
    (dom.state = .running →
      (deleteDomain env dom).1.head? = some (.destroyCall dom.name)) ∧
    (∀ pre x post, (deleteDomain env dom).1 = pre ++ x :: post →
      x = Event.destroyCall dom.name → pre = [] ∧ dom.state = .running) := by
  by_cases hcrash : dom.state = .running ∧ env.destroyFails dom.name = true
  · rw [deleteDomain_crash env dom hcrash]
    refine ⟨fun _ => rfl, ?_⟩
    intro pre x post heq hx
    cases pre with
    | nil => exact ⟨rfl, hcrash.1⟩
    | cons a pre' => simp at heq
  · have hdd := deleteDomain_no_crash env dom hcrash
    have hundef : ∀ n, Event.destroyCall n ∉
        (if env.undefineFails dom.name then
          [Event.undefineCall dom.name,
           Event.msg ("Failed to delete " ++ dom.name ++ ": libvirtError")]
        else
          [Event.undefineCall dom.name, Event.msg ("Deleted " ++ dom.name)] ++
          deleteVolumes env
            ((dom.disks.map (processDisk env dom.name)).filterMap Prod.snd)) := by
      intro n h
      split at h
      · simp at h
      · rw [List.mem_append] at h
        rcases h with h | h
        · simp at h
        · exact deleteVolumes_no_destroy env _ n h
    by_cases hr : dom.state = .running
    · rw [hdd]
      simp only [hr, if_true]
      refine ⟨fun _ => rfl, ?_⟩
      intro pre x post heq hx
      subst hx
      refine ⟨?_, by simp [hr]⟩
      cases pre with
      | nil => rfl
      | cons a pre' =>
        exfalso
        have heq' : Event.msg ("Stopped " ++ dom.name) ::
            (((dom.disks.map (processDisk env dom.name)).map Prod.fst).flatten ++
             (if env.undefineFails dom.name then
                [Event.undefineCall dom.name,
                 Event.msg ("Failed to delete " ++ dom.name ++ ": libvirtError")]
              else
                [Event.undefineCall dom.name, Event.msg ("Deleted " ++ dom.name)] ++
                deleteVolumes env
                  ((dom.disks.map (processDisk env dom.name)).filterMap Prod.snd))) =
            pre' ++ Event.destroyCall dom.name :: post := by
          have := heq
          simp only [List.cons_append, List.append_assoc] at this ⊢
          exact (List.cons.injEq _ _ _ _).mp this |>.2
        have hmem : Event.destroyCall dom.name ∈
            Event.msg ("Stopped " ++ dom.name) ::
            (((dom.disks.map (processDisk env dom.name)).map Prod.fst).flatten ++
             (if env.undefineFails dom.name then
                [Event.undefineCall dom.name,
                 Event.msg ("Failed to delete " ++ dom.name ++ ": libvirtError")]
              else
                [Event.undefineCall dom.name, Event.msg ("Deleted " ++ dom.name)] ++
                deleteVolumes env
                  ((dom.disks.map (processDisk env dom.name)).filterMap Prod.snd))) := by
          rw [heq']
          simp
        rcases List.mem_cons.mp hmem with hc | hc
        · cases hc
        · rcases List.mem_append.mp hc with hc2 | hc2
          · exact diskEvents_no_destroy env dom.name dom.disks dom.name hc2
          · exact hundef dom.name hc2
    · rw [hdd]
      simp only [hr, if_false]
      refine ⟨fun h => h.elim, ?_⟩
      intro pre x post heq hx
      subst hx
      exfalso
      have hmem : Event.destroyCall dom.name ∈
          ([] : List Event) ++
          ((dom.disks.map (processDisk env dom.name)).map Prod.fst).flatten ++
          (if env.undefineFails dom.name then
            [Event.undefineCall dom.name,
             Event.msg ("Failed to delete " ++ dom.name ++ ": libvirtError")]
          else
            [Event.undefineCall dom.name, Event.msg ("Deleted " ++ dom.name)] ++
            deleteVolumes env
              ((dom.disks.map (processDisk env dom.name)).filterMap Prod.snd)) := by
        rw [heq]
        simp
      rw [List.nil_append, List.mem_append] at hmem
      rcases hmem with hc | hc
      · exact diskEvents_no_destroy env dom.name dom.disks dom.name hc
      · exact hundef dom.name hc

/-- Witness for C2 (amended): a running domain whose trace starts with
the destroy call. -/
theorem c2_destroy_first_witness :
    (deleteDomain { pathVolumes := fun _ => true }
      { name := "web1", state := .running,
        disks := [{ target := some (some "vda"),
                    source := some { file := some "/img/web1.qcow2" } }] }).1.head? =
      some (.destroyCall "web1") :=
  (c2_destroy_first { pathVolumes := fun _ => true }
    { name := "web1", state := .running,
      disks := [{ target := some (some "vda"),
                  source := some { file := some "/img/web1.qcow2" } }] }).1 (by decide)

/-! ## Claim C4: which failures escalate to process failure -/

/-- Evidence against claim C4: `dom.destroy()` in `delete`
(vms.py:172) is issued outside any `try`, so when the forced stop of a
running matched domain raises `libvirtError`, the exception escapes the
command (the process exits non-zero with a traceback) and the second
matched domain is never processed — its trace is empty and no message
about it is printed.  This contradicts the claim that every per-item
failure is reported without changing the exit status while iteration
continues. -/
theorem c4_destroy_failure_escalates :
    deleteCmd { destroyFails := fun n => n == "web1" } []
      [{ name := "web1", state := .running }, { name := "web2", state := .running }] =
      ([Event.destroyCall "web1"], true) := by
  decide

/-! ## Claim C6: snapshot-name selection semantics -/

lemma snapshotRevertDomain_def (env : Env) (name : String) (dom : Domain) :
    snapshotRevertDomain env name dom =
      if (dom.snapshots.filter (fun t => t == name)).length = 1 then
        if env.revertFails dom.name then
          [Event.revertCall dom.name
            ((dom.snapshots.filter (fun t => t == name)).headD ""),
           Event.msg ("Failed to revert to snapshot " ++ name ++ " on " ++ dom.name
             ++ ": libvirtError")]
        else
          [Event.revertCall dom.name
            ((dom.snapshots.filter (fun t => t == name)).headD ""),
           Event.msg ("Reverted to snapshot for " ++ dom.name)]
      else [Event.msg ("No snapshot to revert to for " ++ dom.name)] := rfl

lemma selectByPattern_mem (name : String) :
    ∀ (snaps sel : List String), selectByPattern name snaps = .ok sel →
      ∀ s ∈ sel, vm_matches s [name] = .ok true ∧ s ∈ snaps := by
  intro snaps
  induction snaps with
  | nil =>
    intro sel h s hs
    simp only [selectByPattern] at h
    cases h
    simp at hs
  | cons t rest ih =>
    intro sel h s hs
    cases hb : vm_matches t [name] with
    | error e =>
      simp only [selectByPattern, hb, Bind.bind, Except.bind] at h
      exact absurd h (by simp)
    | ok b =>
      cases hrest : selectByPattern name rest with
      | error e =>
        simp only [selectByPattern, hb, hrest, Bind.bind, Except.bind] at h
        exact absurd h (by simp)
      | ok tail =>
        simp only [selectByPattern, hb, hrest, Bind.bind, Except.bind, pure,
          Except.pure, Except.ok.injEq] at h
        subst h
        cases b with
        | true =>
          rw [if_pos rfl] at hs
          rcases List.mem_cons.mp hs with rfl | hs2
          · exact ⟨hb, by simp⟩
          · obtain ⟨h1, h2⟩ := ih tail hrest s hs2
            exact ⟨h1, by simp [h2]⟩
        | false =>
          rw [if_neg (by simp)] at hs
          obtain ⟨h1, h2⟩ := ih tail hrest s hs
          exact ⟨h1, by simp [h2]⟩

lemma deleteSnapsLoop_calls (env : Env) (domName : String) :
    ∀ (sel : List String) (d s : String),
      Event.snapDeleteCall d s ∈ deleteSnapsLoop env domName sel →
      d = domName ∧ s ∈ sel := by
  intro sel
  induction sel with
  | nil => intro d s h; simp [deleteSnapsLoop] at h
  | cons t rest ih =>
    intro d s h
    unfold deleteSnapsLoop at h
    split at h
    · rcases List.mem_cons.mp h with hc | hc
      · cases hc; exact ⟨rfl, by simp⟩
      · simp at hc
    · rw [List.cons_append, List.mem_cons] at h
      rcases h with hc | hc
      · cases hc; exact ⟨rfl, by simp⟩
      · rw [List.cons_append, List.mem_cons] at hc
        rcases hc with hc2 | hc2
        · cases hc2
        · obtain ⟨h1, h2⟩ := ih d s hc2
          exact ⟨h1, by simp [h2]⟩

lemma snapshotRevertDomain_calls (env : Env) (name : String) (dom : Domain) :
    ∀ d s, Event.revertCall d s ∈ snapshotRevertDomain env name dom →
      d = dom.name ∧ s = name := by
  intro d s h
  rw [snapshotRevertDomain_def] at h
  by_cases hlen : (dom.snapshots.filter (fun t => t == name)).length = 1
  · obtain ⟨a, ha⟩ := List.length_eq_one.mp hlen
    have haeq : a = name := by
      have hamem : a ∈ dom.snapshots.filter (fun t => t == name) := by
        rw [ha]; exact List.mem_singleton_self a
      simpa using List.of_mem_filter hamem
    have hhead : (dom.snapshots.filter (fun t => t == name)).headD "" = a := by
      rw [ha]; rfl
    rw [if_pos hlen] at h
    split at h <;>
    · rcases List.mem_cons.mp h with hc | hc
      · cases hc
        exact ⟨rfl, hhead.trans haeq⟩
      · simp at hc
  · rw [if_neg hlen] at h
    simp at h

/-- Counterexample to claim C6 as stated: with snapshot-name argument
`nightly`, `snapshot delete` issues a delete call for the snapshot
`nightly-old`, whose name is not equal to the argument — the selection
is a pattern search, not exact equality. -/
theorem c6_counterexample :
    snapshotDeleteDomain {} "nightly"
      { name := "vm1", state := .running, snapshots := ["nightly", "nightly-old"] } =
      .ok [Event.snapDeleteCall "vm1" "nightly",
           Event.msg "Deleted snapshot nightly on vm1",
           Event.snapDeleteCall "vm1" "nightly-old",
           Event.msg "Deleted snapshot nightly-old on vm1"] ∧
    ("nightly-old" : String) ≠ "nightly" := by
  exact ⟨rfl, by decide⟩

/-- Claim C6 (amended): `snapshot revert` selects snapshots by exact
equality of the snapshot name with the given argument (a revert call is
issued exactly when one snapshot name equals the argument, and only for
that name), whereas `snapshot delete` selects snapshots by
regular-expression pattern search of the argument within the snapshot
name — the same search semantics used for domain-name selection, where
a domain whose name does not match the patterns is skipped. -/
theorem c6_snapshot_selection :
    (∀ (env : Env) (name : String) (dom : Domain) (d s : String),
      Event.revertCall d s ∈ snapshotRevertDomain env name dom →
        d = dom.name ∧ s = name) ∧
    (∀ (env : Env) (name : String) (dom : Domain),
      (dom.snapshots.filter (fun t => t == name)).length = 1 ↔
        ∃ s, Event.revertCall dom.name s ∈ snapshotRevertDomain env name dom) ∧
    (∀ (env : Env) (name : String) (dom : Domain) (evs : List Event),
      snapshotDeleteDomain env name dom = .ok evs →
      ∀ d s, Event.snapDeleteCall d s ∈ evs →
        d = dom.name ∧ vm_matches s [name] = .ok true ∧ s ∈ dom.snapshots) ∧
    (∀ (env : Env) (name : String) (patterns : List String) (d : Domain)
      (rest : List Domain), vm_matches d.name patterns = .ok false →
      snapshotDeleteCmd env name patterns (d :: rest) =
        snapshotDeleteCmd env name patterns rest ∧
      revertLoop env name patterns (d :: rest) = revertLoop env name patterns rest) := by
  refine ⟨fun env name dom => snapshotRevertDomain_calls env name dom, ?_, ?_, ?_⟩
  · intro env name dom
    constructor
    · intro hlen
      refine ⟨(dom.snapshots.filter (fun t => t == name)).headD "", ?_⟩
      rw [snapshotRevertDomain_def, if_pos hlen]
      split <;> simp
    · rintro ⟨s, hs⟩
      by_contra hlen
      rw [snapshotRevertDomain_def, if_neg hlen] at hs
      simp at hs
  · intro env name dom evs h d s hmem
    cases hsel : selectByPattern name dom.snapshots with
    | error e =>
      simp only [snapshotDeleteDomain, hsel, Bind.bind, Except.bind] at h
      exact absurd h (by simp)
    | ok sel =>
      simp only [snapshotDeleteDomain, hsel, Bind.bind, Except.bind] at h
      split at h
      · cases h
        simp at hmem
      · cases h
        obtain ⟨hd, hsin⟩ := deleteSnapsLoop_calls env dom.name sel d s hmem
        obtain ⟨hm, hsnap⟩ := selectByPattern_mem name dom.snapshots sel hsel s hsin
        exact ⟨hd, hm, hsnap⟩
  · intro env name patterns d rest h
    constructor
    · simp [snapshotDeleteCmd, h]
    · simp [revertLoop, h]

/-- Witness for C6 (amended): the revert call issued on a domain with a
single matching snapshot targets exactly the given name. -/
theorem c6_snapshot_selection_witness :
    ("vm1" : String) = "vm1" ∧ ("nightly" : String) = "nightly" :=
  c6_snapshot_selection.1 {} "nightly"
    { name := "vm1", state := .running, snapshots := ["nightly"] } "vm1" "nightly"
    (by decide)

/-! ## Claim C9: snapshot revert ends with a time synchronization -/

lemma snapshotRevertDomain_no_setTime (env : Env) (name : String) (dom : Domain) :
    ∀ d s n2, Event.setTimeCall d s n2 ∉ snapshotRevertDomain env name dom := by
  intro d s n2 h
  rw [snapshotRevertDomain_def] at h
  split at h
  · split at h <;> simp at h
  · simp at h

lemma revertLoop_trace (env : Env) (name : String) (patterns : List String)
    (doms : List Domain) (hp : ∀ p ∈ patterns, parseOk p = true) :
    (revertLoop env name patterns doms).2 = false ∧
    ∀ d s n2, Event.setTimeCall d s n2 ∉ (revertLoop env name patterns doms).1 := by
  induction doms with
  | nil => exact ⟨rfl, by simp [revertLoop]⟩
  | cons d rest ih =>
    obtain ⟨b, hb⟩ := (vm_matches_isOk_iff d.name patterns).mpr hp
    obtain ⟨ih1, ih2⟩ := ih
    cases b with
    | false =>
      constructor
      · simp only [revertLoop, hb]; exact ih1
      · simp only [revertLoop, hb]; exact ih2
    | true =>
      rcases hr : revertLoop env name patterns rest with ⟨r, c⟩
      rw [hr] at ih1 ih2
      constructor
      · simp only [revertLoop, hb, hr]
        exact ih1
      · intro d2 s n2 h
        simp only [revertLoop, hb, hr] at h
        rw [List.mem_append] at h
        rcases h with h | h
        · exact snapshotRevertDomain_no_setTime env name d d2 s n2 h
        · exact ih2 d2 s n2 h

lemma filterMatchedRunning_ok (patterns : List String)
    (hp : ∀ p ∈ patterns, parseOk p = true) :
    ∀ doms : List Domain, ∃ ds, filterMatchedRunning patterns doms = .ok ds ∧
      ∀ dom ∈ doms, vm_matches dom.name patterns = .ok true →
        dom.state = .running → dom ∈ ds := by
  intro doms
  induction doms with
  | nil => exact ⟨[], rfl, by simp⟩
  | cons d rest ih =>
    obtain ⟨ds, hds, hmem⟩ := ih
    obtain ⟨b, hb⟩ := (vm_matches_isOk_iff d.name patterns).mpr hp
    refine ⟨if b ∧ d.state = .running then d :: ds else ds, ?_, ?_⟩
    · simp only [filterMatchedRunning, hb, hds, Bind.bind, Except.bind]
      rfl
    · intro dom hdom hm hr
      rcases List.mem_cons.mp hdom with rfl | h2
      · have hbt : b = true := by
          have h12 := hb.symm.trans hm
          exact (Except.ok.injEq _ _).mp h12
        subst hbt
        rw [if_pos ⟨rfl, hr⟩]
        exact List.mem_cons_self _ _
      · have hx := hmem dom h2 hm hr
        split
        · exact List.mem_cons_of_mem _ hx
        · exact hx

lemma syncLoop_mem (env : Env) :
    ∀ ds : List Domain, ∀ dom ∈ ds,
      Event.setTimeCall dom.name (env.nowNs / 10 ^ 9) (env.nowNs % 10 ^ 9)
        ∈ syncLoop env ds := by
  intro ds
  induction ds with
  | nil => simp
  | cons d rest ih =>
    intro dom hdom
    rcases List.mem_cons.mp hdom with rfl | h2
    · simp [syncLoop, nowParts]
    · have hrec := ih dom h2
      simp only [syncLoop, nowParts, List.cons_append, List.mem_cons, List.mem_append]
      tauto

lemma syncLoop_no_revert (env : Env) :
    ∀ ds : List Domain, ∀ d s, Event.revertCall d s ∉ syncLoop env ds := by
  intro ds
  induction ds with
  | nil => simp [syncLoop]
  | cons dd rest ih =>
    intro d s h
    simp only [syncLoop, nowParts, List.cons_append, List.mem_cons,
      List.mem_append] at h
    rcases h with h | h | h
    · cases h
    · cases h
    · rcases h with h | h
      · split at h <;> simp at h
      · exact ih d s h

/-- Claim C9: after the revert loop over all matched domains,
`snapshot revert` performs a time synchronization: the command's trace
splits into the revert phase followed by the synctime phase, the
synctime phase contains no revert call, the revert phase contains no
setTime call, and every matched running domain — with no assumption
about its snapshots or the outcome of its revert — receives a setTime
call with the current host time in the synctime phase. -/
theorem c9_revert_syncs_time (env : Env) (name : String) (patterns : List String)
    (doms : List Domain) (dom : Domain) (hmem : dom ∈ doms)
    (hmatch : vm_matches dom.name patterns = .ok true)
    (hrun : dom.state = .running) :
    ∃ A B, (snapshotRevertCmd env name patterns doms).1 = A ++ B ∧
      (∀ d s, Event.revertCall d s ∉ B) ∧
      (∀ d s n2, Event.setTimeCall d s n2 ∉ A) ∧
      Event.setTimeCall dom.name (env.nowNs / 10 ^ 9) (env.nowNs % 10 ^ 9) ∈ B := by
  have hp : ∀ p ∈ patterns, parseOk p = true :=
    (vm_matches_isOk_iff dom.name patterns).mp ⟨true, hmatch⟩
  obtain ⟨hnc, hnoset⟩ := revertLoop_trace env name patterns doms hp
  obtain ⟨ds, hds, hdsmem⟩ := filterMatchedRunning_ok patterns hp doms
  rcases hveq : revertLoop env name patterns doms with ⟨revEvs, crashed⟩
  rw [hveq] at hnc hnoset
  have hcf : crashed = false := hnc
  subst hcf
  have hsync : do_synctime env patterns doms = (syncLoop env ds, false) := by
    unfold do_synctime
    rw [hds]
  have hcmd : (snapshotRevertCmd env name patterns doms).1 = revEvs ++ syncLoop env ds := by
    unfold snapshotRevertCmd
    rw [hveq, hsync]
    rfl
  exact ⟨revEvs, syncLoop env ds, hcmd, fun d s => syncLoop_no_revert env ds d s,
    hnoset, syncLoop_mem env ds dom (hdsmem dom hmem hmatch hrun)⟩

/-- Witness for C9: one matched running domain with no snapshots at
all (so no snapshot matched and no revert happened), which still gets
the setTime call. -/
theorem c9_revert_syncs_time_witness :
    ∃ A B, (snapshotRevertCmd {} "snap" [] [{ name := "vm1", state := .running }]).1 =
        A ++ B ∧
      (∀ d s, Event.revertCall d s ∉ B) ∧
      (∀ d s n2, Event.setTimeCall d s n2 ∉ A) ∧
      Event.setTimeCall ({ name := "vm1", state := DomState.running : Domain }).name
        (({} : Env).nowNs / 10 ^ 9) (({} : Env).nowNs % 10 ^ 9) ∈ B :=
  c9_revert_syncs_time {} "snap" [] [{ name := "vm1", state := .running }]
    { name := "vm1", state := .running } (by decide) rfl (by decide)

/-! ## Claim C10: start/stop act only on the right state -/

lemma startCmd_create_only (env : Env) (patterns : List String) :
    ∀ (doms : List Domain) (d : String),
      Event.createCall d ∈ (startCmd env patterns doms).1 →
      ∃ dom, dom ∈ doms ∧ dom.name = d ∧ dom.state ≠ .running ∧
        vm_matches d patterns = .ok true := by
  intro doms
  induction doms with
  | nil => intro d h; simp [startCmd] at h
  | cons dd rest ih =>
    intro d h
    by_cases hs : dd.state = .running
    · rw [show startCmd env patterns (dd :: rest) = startCmd env patterns rest from by
        simp [startCmd, hs]] at h
      obtain ⟨dom, h1, h2, h3, h4⟩ := ih d h
      exact ⟨dom, by simp [h1], h2, h3, h4⟩
    · cases hm : vm_matches dd.name patterns with
      | error e =>
        rw [show startCmd env patterns (dd :: rest) = ([], true) from by
          simp [startCmd, hs, hm]] at h
        simp at h
      | ok b =>
        cases b with
        | false =>
          rw [show startCmd env patterns (dd :: rest) = startCmd env patterns rest from by
            simp [startCmd, hs, hm]] at h
          obtain ⟨dom, h1, h2, h3, h4⟩ := ih d h
          exact ⟨dom, by simp [h1], h2, h3, h4⟩
        | true =>
          rcases hr : startCmd env patterns rest with ⟨r, c⟩
          have hsc : (startCmd env patterns (dd :: rest)).1 =
              (if env.createFails dd.name then
                [Event.createCall dd.name,
                 Event.msg ("Failed to start " ++ dd.name ++ ": libvirtError")]
              else [Event.createCall dd.name, Event.msg (dd.name ++ " started")]) ++ r := by
            simp [startCmd, hs, hm, hr]
          rw [hsc, List.mem_append] at h
          rcases h with h | h
          · have hd : d = dd.name := by
              split at h <;>
              · rcases List.mem_cons.mp h with hc | hc
                · cases hc; rfl
                · simp at hc
            subst hd
            exact ⟨dd, by simp, rfl, hs, hm⟩
          · rw [show r = (startCmd env patterns rest).1 from by rw [hr]] at h
            obtain ⟨dom, h1, h2, h3, h4⟩ := ih d h
            exact ⟨dom, by simp [h1], h2, h3, h4⟩

lemma stopCmd_calls_only (env : Env) (force : Bool) (patterns : List String) :
    ∀ (doms : List Domain) (d : String),
      (Event.destroyCall d ∈ (stopCmd env force patterns doms).1 →
        force = true ∧ ∃ dom, dom ∈ doms ∧ dom.name = d ∧ dom.state = .running ∧
          vm_matches d patterns = .ok true) ∧
      (Event.shutdownCall d ∈ (stopCmd env force patterns doms).1 →
        force = false ∧ ∃ dom, dom ∈ doms ∧ dom.name = d ∧ dom.state = .running ∧
          vm_matches d patterns = .ok true) := by
  intro doms
  induction doms with
  | nil =>
    intro d
    constructor <;> (intro h; simp [stopCmd] at h)
  | cons dd rest ih =>
    intro d
    by_cases hs : dd.state = .running
    · cases hm : vm_matches dd.name patterns with
      | error e =>
        rw [show stopCmd env force patterns (dd :: rest) = ([], true) from by
          simp [stopCmd, hs, hm]]
        constructor <;> (intro h; simp at h)
      | ok b =>
        cases b with
        | false =>
          rw [show stopCmd env force patterns (dd :: rest) =
              stopCmd env force patterns rest from by simp [stopCmd, hs, hm]]
          constructor
          · intro h
            obtain ⟨hf, dom, h1, h2, h3, h4⟩ := (ih d).1 h
            exact ⟨hf, dom, by simp [h1], h2, h3, h4⟩
          · intro h
            obtain ⟨hf, dom, h1, h2, h3, h4⟩ := (ih d).2 h
            exact ⟨hf, dom, by simp [h1], h2, h3, h4⟩
        | true =>
          rcases hr : stopCmd env force patterns rest with ⟨r, c⟩
          have hsc : (stopCmd env force patterns (dd :: rest)).1 =
              (if force then
                if env.destroyFails dd.name then
                  [Event.destroyCall dd.name,
                   Event.msg ("Failed to shut down " ++ dd.name ++ ": libvirtError")]
                else [Event.destroyCall dd.name, Event.msg ("Powered off " ++ dd.name)]
              else
                if env.shutdownFails dd.name then
                  [Event.shutdownCall dd.name,
                   Event.msg ("Failed to shut down " ++ dd.name ++ ": libvirtError")]
                else [Event.shutdownCall dd.name,
                      Event.msg ("Triggered shutdown of " ++ dd.name)]) ++ r := by
            simp [stopCmd, hs, hm, hr]
          rw [hsc]
          have hrest : r = (stopCmd env force patterns rest).1 := by rw [hr]
          constructor
          · intro h
            rw [List.mem_append] at h
            rcases h with h | h
            · cases hforce : force with
              | false =>
                rw [hforce] at h
                exfalso
                rw [if_neg (by simp)] at h
                split at h <;> simp at h
              | true =>
                rw [hforce] at h
                rw [if_pos rfl] at h
                have hd : d = dd.name := by
                  split at h <;>
                  · rcases List.mem_cons.mp h with hc | hc
                    · cases hc; rfl
                    · simp at hc
                subst hd
                exact ⟨rfl, dd, by simp, rfl, hs, hm⟩
            · rw [hrest] at h
              obtain ⟨hf, dom, h1, h2, h3, h4⟩ := (ih d).1 h
              exact ⟨hf, dom, by simp [h1], h2, h3, h4⟩
          · intro h
            rw [List.mem_append] at h
            rcases h with h | h
            · cases hforce : force with
              | true =>
                rw [hforce] at h
                exfalso
                rw [if_pos rfl] at h
                split at h <;> simp at h
              | false =>
                rw [hforce] at h
                rw [if_neg (by simp)] at h
                have hd : d = dd.name := by
                  split at h <;>
                  · rcases List.mem_cons.mp h with hc | hc
                    · cases hc; rfl
                    · simp at hc
                subst hd
                exact ⟨rfl, dd, by simp, rfl, hs, hm⟩
            · rw [hrest] at h
              obtain ⟨hf, dom, h1, h2, h3, h4⟩ := (ih d).2 h
              exact ⟨hf, dom, by simp [h1], h2, h3, h4⟩
    · rw [show stopCmd env force patterns (dd :: rest) =
          stopCmd env force patterns rest from by simp [stopCmd, hs]]
      constructor
      · intro h
        obtain ⟨hf, dom, h1, h2, h3, h4⟩ := (ih d).1 h
        exact ⟨hf, dom, by simp [h1], h2, h3, h4⟩
      · intro h
        obtain ⟨hf, dom, h1, h2, h3, h4⟩ := (ih d).2 h
        exact ⟨hf, dom, by simp [h1], h2, h3, h4⟩

lemma startCmd_skip (env : Env) (patterns : List String) :
    ∀ doms : List Domain, (∀ dom ∈ doms, dom.state = .running) →
      startCmd env patterns doms = ([], false) := by
  intro doms
  induction doms with
  | nil => intro _; rfl
  | cons dd rest ih =>
    intro h
    have hdd : dd.state = .running := h dd (by simp)
    have hrest := ih (fun dom hm => h dom (by simp [hm]))
    simp [startCmd, hdd, hrest]

lemma stopCmd_skip (env : Env) (force : Bool) (patterns : List String) :
    ∀ doms : List Domain, (∀ dom ∈ doms, dom.state ≠ .running) →
      stopCmd env force patterns doms = ([], false) := by
  intro doms
  induction doms with
  | nil => intro _; rfl
  | cons dd rest ih =>
    intro h
    have hdd : dd.state ≠ .running := h dd (by simp)
    have hrest := ih (fun dom hm => h dom (by simp [hm]))
    simp [stopCmd, hdd, hrest]

/-- Claim C10: `start` issues a create call only for matched domains
not in the running state, `stop` issues a shutdown call (without
`--force`) or a destroy call (with `--force`) only for matched running
domains, and a batch in which every domain is in the wrong state for
the command produces no hypervisor call and no message at all. -/
theorem c10_start_stop_guards :
    (∀ (env : Env) (patterns : List String) (doms : List Domain) (d : String),
      Event.createCall d ∈ (startCmd env patterns doms).1 →
      ∃ dom, dom ∈ doms ∧ dom.name = d ∧ dom.state ≠ .running ∧
        vm_matches d patterns = .ok true) ∧
    (∀ (env : Env) (force : Bool) (patterns : List String) (doms : List Domain)
      (d : String),
      Event.destroyCall d ∈ (stopCmd env force patterns doms).1 →
      force = true ∧ ∃ dom, dom ∈ doms ∧ dom.name = d ∧ dom.state = .running ∧
        vm_matches d patterns = .ok true) ∧
    (∀ (env : Env) (force : Bool) (patterns : List String) (doms : List Domain)
      (d : String),
      Event.shutdownCall d ∈ (stopCmd env force patterns doms).1 →
      force = false ∧ ∃ dom, dom ∈ doms ∧ dom.name = d ∧ dom.state = .running ∧
        vm_matches d patterns = .ok true) ∧
    (∀ (env : Env) (patterns : List String) (doms : List Domain),
      (∀ dom ∈ doms, dom.state = .running) → startCmd env patterns doms = ([], false)) ∧
    (∀ (env : Env) (force : Bool) (patterns : List String) (doms : List Domain),
      (∀ dom ∈ doms, dom.state ≠ .running) →
        stopCmd env force patterns doms = ([], false)) :=
  ⟨fun env patterns doms => startCmd_create_only env patterns doms,
   fun env force patterns doms d => (stopCmd_calls_only env force patterns doms d).1,
   fun env force patterns doms d => (stopCmd_calls_only env force patterns doms d).2,
   fun env patterns doms => startCmd_skip env patterns doms,
   fun env force patterns doms => stopCmd_skip env force patterns doms⟩

/-- Witness for C10: a batch of running domains makes `start` a no-op
with no calls and no messages. -/
theorem c10_start_stop_guards_witness :
    startCmd {} ["web"] [{ name := "web1", state := DomState.running }] = ([], false) :=
  c10_start_stop_guards.2.2.2.1 {} ["web"]
    [{ name := "web1", state := DomState.running }] (by decide)
